import Mathlib

set_option maxHeartbeats 1000000

/-!
Shallow embedding of the planner/actor core of the `computer_use_ootb` repository
(`computer_use_demo/gui_agent/planner/api_vlm_planner.py` and
`computer_use_demo/gui_agent/actor/showui_actor_api.py`), together with proofs of
the behavioural properties stated in the specification.
-/

namespace OOTB

/-! ### Data model for `_maybe_filter_to_n_most_recent_images`

Messages are Python dicts with a `"role"` and a `"content"` entry; `"content"` is
either a list of items or some non-list value.  Items that are dicts with
`"type" == "tool_result"` carry their own `"content"`, which is either a list of
content blocks or absent / a non-list value (in Python, iterating such a value with
the `content.get("type") == "image"` test yields no image blocks, and the removal
loop skips it because of its `isinstance(..., list)` guard; both behaviours are
modelled by `none`).  A content block is a dict whose `"type"` is `"image"`,
`"text"`, or something else (e.g. an error payload). -/

/-- A content block inside a tool_result `"content"` list. Only blocks that are
dicts with `"type" == "image"` satisfy the source's image test. -/
inductive TRContent where
  | image (data : String)
  | text (s : String)
  | error (s : String)
  | other (tag : String)
deriving DecidableEq

/-- The source's test `isinstance(content, dict) and content.get("type") == "image"`. -/
def TRContent.isImageBlock : TRContent → Bool
  | .image _ => true
  | _ => false

/-- An item of a message's `"content"` list: either a dict with
`"type" == "tool_result"` (whose own `"content"` is a list of blocks, or `none`
for an absent / non-list value), or anything else. -/
inductive Item where
  | toolResult (content : Option (List TRContent))
  | plain (tag : String)
deriving DecidableEq

/-- A message's `"content"` value: a list of items, or some non-list value. -/
inductive PContent where
  | list (items : List Item)
  | nonList (tag : String)
deriving DecidableEq

/-- A message dict as seen by `_maybe_filter_to_n_most_recent_images`. -/
structure PMsg where
  role : String
  content : PContent
deriving DecidableEq

/-- The item list contributed by one message:
`message["content"] if isinstance(message["content"], list) else []`. -/
def msgItems (m : PMsg) : List Item :=
  match m.content with
  | .list items => items
  | .nonList _ => []

/-- The source's comprehension filter
`isinstance(item, dict) and item.get("type") == "tool_result"`,
keeping the tool_result's own `"content"`. -/
def itemContent : Item → Option (Option (List TRContent))
  | .toolResult c => some c
  | .plain _ => none

/-- The `tool_result_blocks` comprehension: all tool_result items across all
messages, in traversal order. -/
def tool_result_blocks (messages : List PMsg) : List (Option (List TRContent)) :=
  (messages.flatMap msgItems).filterMap itemContent

/-- The image blocks of one tool_result's `"content"` (via `tool_result.get("content", [])`),
in order. -/
def block_images (c : Option (List TRContent)) : List TRContent :=
  (c.getD []).filter (fun b => b.isImageBlock)

/-- The `total_images` generator sum of the source:
one count per image block across all tool_result contents. -/
def total_images (messages : List PMsg) : Nat :=
  ((tool_result_blocks messages).map (fun c => (block_images c).length)).sum

/-- All image blocks of a message list in traversal order (messages, then items,
then blocks). The source's removal loop consumes exactly this sequence. -/
def images_in_order (messages : List PMsg) : List TRContent :=
  (tool_result_blocks messages).flatMap block_images

/-- The source's rewrite loop over one tool_result `"content"` list: an image
block is skipped (and the counter decremented) while `images_to_remove > 0`;
every other block is kept. Returns the leftover counter and the new content. -/
def pruneBlockContents : Int → List TRContent → Int × List TRContent
  | r, [] => (r, [])
  | r, c :: cs =>
    if c.isImageBlock ∧ 0 < r then
      pruneBlockContents (r - 1) cs
    else
      let p := pruneBlockContents r cs
      (p.1, c :: p.2)

/-- The rewrite threaded through one message's item list: tool_result items with
a list `"content"` are rewritten in place (`tool_result["content"] = new_content`);
tool_results with a non-list content and all other items are untouched. -/
def pruneItems : Int → List Item → Int × List Item
  | r, [] => (r, [])
  | r, Item.toolResult (some c) :: rest =>
    let p := pruneBlockContents r c
    let q := pruneItems p.1 rest
    (q.1, Item.toolResult (some p.2) :: q.2)
  | r, Item.toolResult none :: rest =>
    let q := pruneItems r rest
    (q.1, Item.toolResult none :: q.2)
  | r, Item.plain t :: rest =>
    let q := pruneItems r rest
    (q.1, Item.plain t :: q.2)

/-- The rewrite threaded through the whole message list.  The source first
collects `tool_result_blocks` and then mutates each block dict in place; since
the collected references appear in traversal order, this is the same as
threading the `images_to_remove` counter through messages in order. -/
def pruneMessages : Int → List PMsg → Int × List PMsg
  | r, [] => (r, [])
  | r, m :: rest =>
    match m.content with
    | PContent.list items =>
      let p := pruneItems r items
      let q := pruneMessages p.1 rest
      (q.1, { m with content := PContent.list p.2 } :: q.2)
    | PContent.nonList _ =>
      let q := pruneMessages r rest
      (q.1, m :: q.2)

/-- `_maybe_filter_to_n_most_recent_images(messages, images_to_keep, min_removal_threshold)`
for an integer (non-`None`) `images_to_keep`:
`images_to_remove = total_images - images_to_keep` is rounded down to a multiple
of `min_removal_threshold` via Python `%` (floor-mod, which for a positive
modulus agrees with `Int.emod`), then the rewrite loop runs. -/
def maybe_filter_to_n_most_recent_images
    (messages : List PMsg) (images_to_keep : Nat) (min_removal_threshold : Nat) : List PMsg :=
  let itr0 : Int := (total_images messages : Int) - (images_to_keep : Int)
  let itr : Int := itr0 - itr0 % (min_removal_threshold : Int)
  (pruneMessages itr messages).2

/-- Python truthiness of an `int | None` value: `None` and `0` are falsy. -/
def pyTruthy : Option Nat → Bool
  | none => false
  | some n => n != 0

/-- The pruning stage of `APIVLMPlanner.__call__`:
`if self.only_n_most_recent_images: _maybe_filter_to_n_most_recent_images(...)`
with the default `min_removal_threshold = 10`. -/
def call_prune_stage (only_n_most_recent_images : Option Nat) (messages : List PMsg) :
    List PMsg :=
  if pyTruthy only_n_most_recent_images then
    maybe_filter_to_n_most_recent_images messages (only_n_most_recent_images.getD 0) 10
  else
    messages

/-- Erase the image blocks from a tool_result item, keeping everything else.
Used to state that pruning touches nothing but image blocks. -/
def stripImagesItem : Item → Item
  | Item.toolResult (some c) => Item.toolResult (some (c.filter (fun b => !b.isImageBlock)))
  | it => it

/-- Erase the image blocks from one message. -/
def stripImagesMsg (m : PMsg) : PMsg :=
  match m.content with
  | PContent.list items => { m with content := PContent.list (items.map stripImagesItem) }
  | PContent.nonList _ => m

/-- Erase the image blocks from a whole message list. -/
def strip_images (messages : List PMsg) : List PMsg :=
  messages.map stripImagesMsg

/-! ### Properties of the pruning pass -/

/-- Image blocks of one item list, in traversal order. -/
def items_images (items : List Item) : List TRContent :=
  (items.filterMap itemContent).flatMap block_images

lemma items_images_cons_some (c : List TRContent) (rest : List Item) :
    items_images (Item.toolResult (some c) :: rest)
      = c.filter (fun b => b.isImageBlock) ++ items_images rest := by
  simp [items_images, itemContent, block_images, List.filterMap_cons, List.flatMap_cons]

lemma items_images_cons_none (rest : List Item) :
    items_images (Item.toolResult none :: rest) = items_images rest := by
  simp [items_images, itemContent, block_images, List.filterMap_cons, List.flatMap_cons]

lemma items_images_cons_plain (t : String) (rest : List Item) :
    items_images (Item.plain t :: rest) = items_images rest := by
  simp [items_images, itemContent, List.filterMap_cons]

lemma pruneBlockContents_spec (c : List TRContent) : ∀ r : Int,
    (pruneBlockContents r c).2.filter (fun b => b.isImageBlock) =
        (c.filter (fun b => b.isImageBlock)).drop r.toNat
    ∧ (pruneBlockContents r c).2.filter (fun b => !b.isImageBlock) =
        c.filter (fun b => !b.isImageBlock)
    ∧ ((pruneBlockContents r c).1).toNat
        = r.toNat - (c.filter (fun b => b.isImageBlock)).length := by
  induction c with
  | nil =>
    intro r
    simp [pruneBlockContents]
  | cons b cs ih =>
    intro r
    by_cases hb : b.isImageBlock
    · by_cases hr : (0:Int) < r
      · obtain ⟨h1, h2, h3⟩ := ih (r - 1)
        have hu : pruneBlockContents r (b :: cs) = pruneBlockContents (r - 1) cs := by
          simp only [pruneBlockContents]
          rw [if_pos ⟨hb, hr⟩]
        have hn : r.toNat = (r - 1).toNat + 1 := by omega
        refine ⟨?_, ?_, ?_⟩
        · rw [hu, h1, hn]
          simp [List.filter_cons, hb, List.drop_succ_cons]
        · rw [hu, h2]
          simp [List.filter_cons, hb]
        · rw [hu, h3]
          simp only [List.filter_cons, hb, if_true, List.length_cons]
          omega
      · have hcond : ¬(b.isImageBlock = true ∧ (0:Int) < r) := fun h => hr h.2
        obtain ⟨h1, h2, h3⟩ := ih r
        have hu : pruneBlockContents r (b :: cs)
            = ((pruneBlockContents r cs).1, b :: (pruneBlockContents r cs).2) := by
          simp only [pruneBlockContents]
          rw [if_neg hcond]
        have hn : r.toNat = 0 := by omega
        refine ⟨?_, ?_, ?_⟩
        · rw [hu]
          simp [List.filter_cons, hb, h1, hn]
        · rw [hu]
          simp [List.filter_cons, hb, h2]
        · rw [hu]
          simp [List.filter_cons, hb, h3]
          omega
    · have hcond : ¬(b.isImageBlock = true ∧ (0:Int) < r) := fun h => hb h.1
      obtain ⟨h1, h2, h3⟩ := ih r
      have hu : pruneBlockContents r (b :: cs)
          = ((pruneBlockContents r cs).1, b :: (pruneBlockContents r cs).2) := by
        simp only [pruneBlockContents]
        rw [if_neg hcond]
      refine ⟨?_, ?_, ?_⟩
      · rw [hu]
        simp [List.filter_cons, hb, h1]
      · rw [hu]
        simp [List.filter_cons, hb, h2]
      · rw [hu]
        simp [List.filter_cons, hb, h3]

lemma pruneItems_spec (items : List Item) : ∀ r : Int,
    items_images (pruneItems r items).2 = (items_images items).drop r.toNat
    ∧ (pruneItems r items).2.map stripImagesItem = items.map stripImagesItem
    ∧ ((pruneItems r items).1).toNat = r.toNat - (items_images items).length := by
  induction items with
  | nil =>
    intro r
    simp [pruneItems, items_images]
  | cons it rest ih =>
    intro r
    match it with
    | Item.toolResult (some c) =>
      obtain ⟨b1, b2, b3⟩ := pruneBlockContents_spec c r
      obtain ⟨i1, i2, i3⟩ := ih (pruneBlockContents r c).1
      have hu : pruneItems r (Item.toolResult (some c) :: rest)
          = ((pruneItems (pruneBlockContents r c).1 rest).1,
             Item.toolResult (some (pruneBlockContents r c).2)
               :: (pruneItems (pruneBlockContents r c).1 rest).2) := by
        simp [pruneItems]
      refine ⟨?_, ?_, ?_⟩
      · rw [hu, items_images_cons_some, items_images_cons_some, b1, i1, b3,
          List.drop_append_eq_append_drop]
      · rw [hu]
        simp [stripImagesItem, b2, i2]
      · rw [hu, items_images_cons_some, List.length_append]
        simp only [i3, b3]
        omega
    | Item.toolResult none =>
      obtain ⟨i1, i2, i3⟩ := ih r
      have hu : pruneItems r (Item.toolResult none :: rest)
          = ((pruneItems r rest).1, Item.toolResult none :: (pruneItems r rest).2) := by
        simp [pruneItems]
      refine ⟨?_, ?_, ?_⟩
      · rw [hu, items_images_cons_none, items_images_cons_none, i1]
      · rw [hu]
        simp [stripImagesItem, i2]
      · rw [hu, items_images_cons_none, i3]
    | Item.plain t =>
      obtain ⟨i1, i2, i3⟩ := ih r
      have hu : pruneItems r (Item.plain t :: rest)
          = ((pruneItems r rest).1, Item.plain t :: (pruneItems r rest).2) := by
        simp [pruneItems]
      refine ⟨?_, ?_, ?_⟩
      · rw [hu, items_images_cons_plain, items_images_cons_plain, i1]
      · rw [hu]
        simp [stripImagesItem, i2]
      · rw [hu, items_images_cons_plain, i3]

lemma images_in_order_cons (m : PMsg) (rest : List PMsg) :
    images_in_order (m :: rest) = items_images (msgItems m) ++ images_in_order rest := by
  simp [images_in_order, tool_result_blocks, items_images, List.flatMap_cons,
    List.filterMap_append, List.flatMap_append]

lemma pruneMessages_spec (messages : List PMsg) : ∀ r : Int,
    images_in_order (pruneMessages r messages).2 = (images_in_order messages).drop r.toNat
    ∧ strip_images (pruneMessages r messages).2 = strip_images messages
    ∧ ((pruneMessages r messages).1).toNat = r.toNat - (images_in_order messages).length := by
  induction messages with
  | nil =>
    intro r
    simp [pruneMessages, images_in_order, tool_result_blocks]
  | cons m rest ih =>
    intro r
    match hm : m.content with
    | PContent.list items =>
      obtain ⟨b1, b2, b3⟩ := pruneItems_spec items r
      obtain ⟨i1, i2, i3⟩ := ih (pruneItems r items).1
      have hu : pruneMessages r (m :: rest)
          = ((pruneMessages (pruneItems r items).1 rest).1,
             { m with content := PContent.list (pruneItems r items).2 }
               :: (pruneMessages (pruneItems r items).1 rest).2) := by
        simp [pruneMessages, hm]
      have hmi : msgItems m = items := by simp [msgItems, hm]
      refine ⟨?_, ?_, ?_⟩
      · rw [hu, images_in_order_cons, images_in_order_cons, hmi]
        simp only [msgItems, b1, i1, b3]
        rw [List.drop_append_eq_append_drop]
      · rw [hu]
        simp only [strip_images, List.map_cons]
        have hsm : stripImagesMsg { m with content := PContent.list (pruneItems r items).2 }
            = stripImagesMsg m := by
          simp [stripImagesMsg, hm, b2]
        rw [hsm]
        have := i2
        simp only [strip_images] at this
        rw [this]
      · rw [hu, images_in_order_cons, hmi, List.length_append]
        simp only [i3, b3]
        omega
    | PContent.nonList t =>
      obtain ⟨i1, i2, i3⟩ := ih r
      have hu : pruneMessages r (m :: rest)
          = ((pruneMessages r rest).1, m :: (pruneMessages r rest).2) := by
        simp [pruneMessages, hm]
      have hmi : msgItems m = [] := by simp [msgItems, hm]
      refine ⟨?_, ?_, ?_⟩
      · rw [hu, images_in_order_cons, images_in_order_cons, hmi, i1]
        simp [items_images]
      · rw [hu]
        simp only [strip_images, List.map_cons]
        have := i2
        simp only [strip_images] at this
        rw [this]
      · rw [hu, images_in_order_cons, hmi, i3]
        simp [items_images]

lemma total_images_eq_length (messages : List PMsg) :
    total_images messages = (images_in_order messages).length := by
  simp only [total_images, images_in_order, List.length_flatMap]
  rfl

/-- C1: for every message list and every `images_to_keep ≥ 0`, with the default
`min_removal_threshold = 10`, the pruning pass removes exactly
`⌊(N - images_to_keep) / 10⌋ * 10` images when `N > images_to_keep` and zero
images when `N ≤ images_to_keep` (with `N` the total image count; stated as one
truncated-subtraction equation on the remaining image count, which covers both
cases). -/
theorem prune_removes_floored_batch_count (messages : List PMsg) (images_to_keep : Nat) :
    total_images (maybe_filter_to_n_most_recent_images messages images_to_keep 10)
      = total_images messages - (total_images messages - images_to_keep) / 10 * 10 := by
  obtain ⟨h1, h2, h3⟩ := pruneMessages_spec messages
    (((total_images messages : Int) - (images_to_keep : Int))
      - ((total_images messages : Int) - (images_to_keep : Int)) % ((10 : Nat) : Int))
  simp only [maybe_filter_to_n_most_recent_images]
  rw [total_images_eq_length, h1, List.length_drop, ← total_images_eq_length]
  omega

/-- C6: pruning drops the earliest images first — the images remaining after the
pass are exactly the original image sequence, in traversal order, with its first
`⌊(N - images_to_keep) / 10⌋ * 10` entries dropped (so the retained images are
the most recent ones) — and the non-image content of every tool result (text and
error blocks alike), the item structure, and all other message fields are
unchanged. -/
theorem prune_drops_oldest_images_only (messages : List PMsg) (images_to_keep : Nat) :
    images_in_order (maybe_filter_to_n_most_recent_images messages images_to_keep 10)
      = (images_in_order messages).drop ((total_images messages - images_to_keep) / 10 * 10)
    ∧ strip_images (maybe_filter_to_n_most_recent_images messages images_to_keep 10)
      = strip_images messages := by
  obtain ⟨h1, h2, h3⟩ := pruneMessages_spec messages
    (((total_images messages : Int) - (images_to_keep : Int))
      - ((total_images messages : Int) - (images_to_keep : Int)) % ((10 : Nat) : Int))
  constructor
  · simp only [maybe_filter_to_n_most_recent_images]
    rw [h1]
    congr 1
    omega
  · simp only [maybe_filter_to_n_most_recent_images]
    exact h2

/-- C10: when `only_n_most_recent_images` is `0` (not `None`), the guard
`if self.only_n_most_recent_images:` in `APIVLMPlanner.__call__` is falsy, so the
pruning stage is skipped entirely and every message list passes through
unchanged. -/
theorem call_prune_stage_zero_is_noop (messages : List PMsg) :
    call_prune_stage (some 0) messages = messages := by
  simp [call_prune_stage, pyTruthy]

/-! ### Data model for `_message_filter_callback`

The canonical conversation log is a heterogeneous Python list.  An entry is
either a dict (with optional `"role"` and `"content"` keys) or a plain string
(strings arise because the filter itself outputs strings).  A dict's content
value is a list of items, or a single non-list item; an item is an Anthropic
`TextBlock`, a plain string, or anything else. -/

/-- An element of a message dict's content list. -/
inductive FItem where
  | textBlock (text : String)
  | str (s : String)
  | other (tag : String)
deriving DecidableEq

/-- A message dict's `"content"` value: a list, or a single non-list value. -/
inductive FContent where
  | list (l : List FItem)
  | single (it : FItem)
deriving DecidableEq

/-- One entry of the canonical log as seen by `_message_filter_callback`:
a dict (with its optional `"role"` and `"content"` entries) or a non-dict
value such as a string. -/
inductive FMsg where
  | dict (role : Option String) (content : Option FContent)
  | nonDict (s : String)
deriving DecidableEq

/-- Outcome of the loop body of `_message_filter_callback` on one message:
append a string to `filtered_list`, drop the message (`continue`), or raise an
exception (only caught by the `try` that wraps the whole loop). -/
inductive StepResult where
  | append (s : String)
  | drop
  | raise
deriving DecidableEq

/-- The loop body of `_message_filter_callback` on one message.
`msg.get('role')` on a non-dict raises `AttributeError`; a dict whose role is
not `'user'` is logged and dropped; `msg["content"]` raises `KeyError` when the
key is missing; a non-list content is first wrapped into a one-element list;
`msg["content"][0]` raises `IndexError` on an empty list; a `TextBlock` or `str`
head is appended to the output, anything else is logged and dropped. -/
def processMsg : FMsg → StepResult
  | FMsg.nonDict _ => StepResult.raise
  | FMsg.dict role content =>
    if role = some "user" then
      match content with
      | none => StepResult.raise
      | some (FContent.single it) =>
        match it with
        | FItem.textBlock t => StepResult.append t
        | FItem.str s => StepResult.append s
        | FItem.other _ => StepResult.drop
      | some (FContent.list []) => StepResult.raise
      | some (FContent.list (it :: _)) =>
        match it with
        | FItem.textBlock t => StepResult.append t
        | FItem.str s => StepResult.append s
        | FItem.other _ => StepResult.drop
    else
      StepResult.drop

/-- The in-place normalization performed by the loop body before it inspects
`msg["content"][0]`: a processed user message with a non-list content gets its
content wrapped into a one-element list (`msg["content"] = [msg["content"]]`);
every other message is left as is. -/
def postMsg : FMsg → FMsg
  | FMsg.dict role (some (FContent.single it)) =>
    if role = some "user" then FMsg.dict role (some (FContent.list [it]))
    else FMsg.dict role (some (FContent.single it))
  | m => m

/-- The whole of `_message_filter_callback`: the `try` wraps the entire `for`
loop, so the first raising message ends the pass (the exception is logged and
the `filtered_list` accumulated so far is returned); messages after it are not
processed and hence not mutated.  Returns the post-state of the input list
together with the returned `filtered_list`. -/
def filterRun : List FMsg → List FMsg × List String
  | [] => ([], [])
  | m :: rest =>
    match processMsg m with
    | StepResult.raise => (m :: rest, [])
    | StepResult.drop =>
      let q := filterRun rest
      (postMsg m :: q.1, q.2)
    | StepResult.append s =>
      let q := filterRun rest
      (postMsg m :: q.1, s :: q.2)

/-- The return value of `_message_filter_callback`. -/
def message_filter_callback (messages : List FMsg) : List String :=
  (filterRun messages).2

/-- The post-state of the canonical log after `_message_filter_callback` ran
over it (the filter mutates processed messages in place). -/
def log_after_filter (messages : List FMsg) : List FMsg :=
  (filterRun messages).1

/-- Feeding the output of the filter back in: the returned strings are plain
list entries, i.e. non-dict messages. -/
def stringsAsMsgs (l : List String) : List FMsg :=
  l.map FMsg.nonDict

/-- The content items of a log entry (a one-element list for a non-list
content value), used to state that no content item is ever lost. -/
def contentItems : FMsg → List FItem
  | FMsg.dict _ (some (FContent.list l)) => l
  | FMsg.dict _ (some (FContent.single it)) => [it]
  | _ => []

/-! ### Properties of the history filter -/

/-- C2 counterexample: the `try` of `_message_filter_callback` wraps the whole
`for` loop, so one raising message aborts the entire pass.  The plain
user-authored text message `"hello"` is returned when it is filtered on its
own, but is NOT in the output when a malformed (non-dict) message precedes it —
contradicting the claim that every message after a failing one is still
processed. -/
theorem filter_abort_counterexample :
    message_filter_callback
        [FMsg.nonDict "looped",
         FMsg.dict (some "user") (some (FContent.list [FItem.str "hello"]))] = []
    ∧ message_filter_callback
        [FMsg.dict (some "user") (some (FContent.list [FItem.str "hello"]))] = ["hello"] := by
  decide

/-- C2 (amended): a per-message error does not abort the caller —
`_message_filter_callback` catches it, logs, and returns normally — but it ends
the whole pass at the failing message: the output equals the output on the
prefix before that message, and the failing message and everything after it
contribute nothing. -/
theorem filter_error_truncates_pass (pre suf : List FMsg) (bad : FMsg)
    (h : processMsg bad = StepResult.raise) :
    message_filter_callback (pre ++ bad :: suf) = message_filter_callback pre := by
  induction pre with
  | nil =>
    simp [message_filter_callback, filterRun, h]
  | cons m pre ih =>
    have ih' := ih
    simp only [message_filter_callback] at ih' ⊢
    cases hp : processMsg m <;>
      simp only [List.cons_append, filterRun, hp] <;> simp [ih']

/-- Witness for the amended C2 theorem at a concrete log. -/
theorem filter_error_truncates_pass_witness :
    processMsg (FMsg.nonDict "looped") = StepResult.raise
    ∧ message_filter_callback
        ([FMsg.dict (some "user") (some (FContent.list [FItem.str "a"]))] ++
          FMsg.nonDict "looped" ::
            [FMsg.dict (some "user") (some (FContent.list [FItem.str "b"]))])
      = message_filter_callback
          [FMsg.dict (some "user") (some (FContent.list [FItem.str "a"]))] :=
  ⟨by decide, filter_error_truncates_pass _ _ _ (by decide)⟩

/-- C3 counterexample: filtering is not idempotent.  A log with one valid user
text message filters to `["hello"]`, but filtering that output again yields
`[]` (the output entries are plain strings, on which `msg.get` raises, aborting
the pass), not `["hello"]`. -/
theorem filter_not_idempotent_counterexample :
    message_filter_callback
        (stringsAsMsgs (message_filter_callback
          [FMsg.dict (some "user") (some (FContent.list [FItem.str "hello"]))]))
      ≠ message_filter_callback
          [FMsg.dict (some "user") (some (FContent.list [FItem.str "hello"]))] := by
  decide

/-- C3 (amended): applying `_message_filter_callback` to its own output always
yields the empty list — the output entries are plain strings, so the first one
raises and the pass aborts with nothing accumulated — hence filtering is
idempotent only on logs whose filtered output is already empty. -/
theorem filter_twice_is_empty (messages : List FMsg) :
    message_filter_callback (stringsAsMsgs (message_filter_callback messages)) = [] := by
  cases h : message_filter_callback messages with
  | nil => simp [stringsAsMsgs, message_filter_callback, filterRun]
  | cons s rest => simp [stringsAsMsgs, message_filter_callback, filterRun, processMsg]

/-- C5 counterexample: the Planner does mutate the canonical log, and not by
image pruning: `_message_filter_callback` rewrites a user message whose content
is a plain (non-list) value into one whose content is a one-element list
(`msg["content"] = [msg["content"]]`), for a message that contains no image at
all. -/
theorem planner_mutates_log_counterexample :
    log_after_filter [FMsg.dict (some "user") (some (FContent.single (FItem.str "hi")))]
      ≠ [FMsg.dict (some "user") (some (FContent.single (FItem.str "hi")))] := by
  decide

lemma log_after_filter_length (messages : List FMsg) :
    (log_after_filter messages).length = messages.length := by
  induction messages with
  | nil => simp [log_after_filter, filterRun]
  | cons m rest ih =>
    have ih' := ih
    simp only [log_after_filter] at ih' ⊢
    cases hp : processMsg m <;> simp [filterRun, hp, ih']

lemma log_after_filter_pointwise (messages : List FMsg) :
    ∀ i : Nat, (log_after_filter messages)[i]? = messages[i]?
      ∨ (log_after_filter messages)[i]? = (messages[i]?).map postMsg := by
  induction messages with
  | nil =>
    intro i
    left
    simp [log_after_filter, filterRun]
  | cons m rest ih =>
    intro i
    cases hp : processMsg m
    case raise =>
      left
      simp [log_after_filter, filterRun, hp]
    case drop =>
      cases i with
      | zero =>
        right
        simp [log_after_filter, filterRun, hp]
      | succ n =>
        have := ih n
        simpa [log_after_filter, filterRun, hp] using this
    case append s =>
      cases i with
      | zero =>
        right
        simp [log_after_filter, filterRun, hp]
      | succ n =>
        have := ih n
        simpa [log_after_filter, filterRun, hp] using this

/-- C5 (amended): the only in-place mutation `APIVLMPlanner.__call__` performs
on the canonical log is the history filter's normalization that wraps a
processed user message's non-list content into a one-element list: the log
keeps its length, every entry is either unchanged or equal to its wrapped form
`postMsg`, and wrapping never adds, removes, or alters a content item (in
particular it never removes text — the image-pruning pass runs on the filtered
string copy, not on the canonical log). -/
theorem planner_mutation_is_wrapping_only (messages : List FMsg) :
    (log_after_filter messages).length = messages.length
    ∧ (∀ i : Nat, (log_after_filter messages)[i]? = messages[i]?
        ∨ (log_after_filter messages)[i]? = (messages[i]?).map postMsg)
    ∧ (∀ m, contentItems (postMsg m) = contentItems m) := by
  refine ⟨log_after_filter_length messages, log_after_filter_pointwise messages, ?_⟩
  intro m
  match m with
  | FMsg.nonDict s => simp [postMsg]
  | FMsg.dict role none => simp [postMsg]
  | FMsg.dict role (some (FContent.list l)) => simp [postMsg]
  | FMsg.dict role (some (FContent.single it)) =>
    by_cases hr : role = some "user" <;> simp [postMsg, hr, contentItems]

/-! ### Provider dispatch and token accounting in `APIVLMPlanner.__call__`

The network adapters (`run_oai_interleaved`, `run_qwen`,
`run_ssh_llm_interleaved`) are external services; their replies are passed in
as oracle values, so the dispatch logic of lines 100-153 of
`api_vlm_planner.py` becomes a pure state transition on the planner's
token-usage ledger. -/

/-- The `APIProvider` enum (providers the dispatch chain distinguishes, plus a
catch-all for any other member, which falls through to the final `else`). -/
inductive APIProvider where
  | openai
  | openrouter
  | qwen
  | ssh
  | other (tag : String)
deriving DecidableEq

/-- The planner's token-usage ledger: `self.total_token_usage` and
`self.total_cost`.  Python float cost arithmetic is modelled over `ℚ` with the
exact constants written in the source. -/
structure PlannerState where
  total_token_usage : Nat
  total_cost : ℚ
deriving DecidableEq

/-- A raw adapter reply: response text and token-usage count. -/
structure AdapterReply where
  response : String
  token_usage : Nat
deriving DecidableEq

/-- Python `str.split(sep)` for a one-character separator, on the character
list: every occurrence splits, empty parts included. -/
def splitOnChar (sep : Char) : List Char → List (List Char)
  | [] => [[]]
  | c :: cs =>
    let r := splitOnChar sep cs
    if c = sep then [] :: r
    else
      match r with
      | [] => [[c]]
      | p :: ps => (c :: p) :: ps

/-- Python `"s".split(":")`-style splitting of a string. -/
def pySplit (s : String) (sep : Char) : List String :=
  (splitOnChar sep s.data).map (fun l => String.mk l)

/-- The numeric value of a decimal digit character, if it is one. -/
def digitVal (c : Char) : Option Nat :=
  if '0' ≤ c ∧ c ≤ '9' then some (c.toNat - '0'.toNat) else none

/-- Accumulate decimal digits; `none` as the accumulator means no digit has
been seen yet, and any non-digit character fails the parse. -/
def digitsVal : List Char → Option Nat → Option Nat
  | [], acc => acc
  | c :: cs, acc =>
    match digitVal c, acc with
    | some d, some a => digitsVal cs (some (a * 10 + d))
    | some d, none => digitsVal cs (some d)
    | none, _ => none

/-- Python `int(s)` on the sign-and-digits strings exercised by the SSH branch
(`ValueError` on anything else is modelled by `none`; surrounding whitespace
and digit-group underscores, which Python also tolerates, are not modelled). -/
def pyInt (s : String) : Option Int :=
  match s.data with
  | '-' :: cs => (digitsVal cs none).map (fun n => -(n : Int))
  | '+' :: cs => (digitsVal cs none).map (fun n => (n : Int))
  | cs => (digitsVal cs none).map (fun n => (n : Int))

/-- The SSH branch's credential parse:
`ssh_host, ssh_port = self.api_key.split(":")` followed by
`ssh_port = int(ssh_port)`, with any `ValueError` (a part count other than two,
or a non-integer port) caught and re-raised as the configuration error of the
source. -/
def ssh_parse (api_key : String) : Except String (String × Int) :=
  match pySplit api_key ':' with
  | [h, p] =>
    match pyInt p with
    | some n => Except.ok (h, n)
    | none => Except.error "Invalid SSH connection string. Expected format: host:port"
  | _ => Except.error "Invalid SSH connection string. Expected format: host:port"

/-- The provider-dispatch and token-accounting chain of
`APIVLMPlanner.__call__`: OpenAI/OpenRouter use the OpenAI-compatible adapter
and add its token count (cost is added for OpenAI only); Qwen (with the
`qwen2-vl-max` model) uses the Qwen adapter and adds its token count and cost;
SSH parses the credential as `host:port` and then calls the SSH adapter —
without touching the ledger; anything else raises `Model ... not supported`. -/
def dispatch (provider : APIProvider) (model api_key : String)
    (oai qwen : AdapterReply) (sshAdapter : String → Int → AdapterReply)
    (st : PlannerState) : Except String (PlannerState × String) :=
  if provider = APIProvider.openai ∨ provider = APIProvider.openrouter then
    Except.ok
      ({ total_token_usage := st.total_token_usage + oai.token_usage,
         total_cost :=
           if provider = APIProvider.openai then
             st.total_cost + (oai.token_usage : ℚ) * (15 / 100) / 1000000
           else
             st.total_cost },
       oai.response)
  else if provider = APIProvider.qwen ∧ model = "qwen2-vl-max" then
    Except.ok
      ({ total_token_usage := st.total_token_usage + qwen.token_usage,
         total_cost := st.total_cost + (qwen.token_usage : ℚ) * (2 / 100) / (725 / 100) / 1000 },
       qwen.response)
  else if provider = APIProvider.ssh then
    match ssh_parse api_key with
    | Except.error e => Except.error e
    | Except.ok hp => Except.ok (st, (sshAdapter hp.1 hp.2).response)
  else
    Except.error ("Model " ++ model ++ " not supported")

/-- C4 counterexample: the SSH branch completes a call (the adapter reply
carries a token count of 5) yet leaves the ledger at 0 — the counter is not
increased by the adapter's token count, so not every provider branch
increments it. -/
theorem ssh_branch_token_counterexample :
    dispatch APIProvider.ssh "Qwen2-VL-7B-Instruct" "localhost:8000"
        ⟨"r", 3⟩ ⟨"q", 3⟩ (fun _ _ => ⟨"resp", 5⟩) ⟨0, 0⟩
      = Except.ok ((⟨0, 0⟩ : PlannerState), "resp")
    ∧ (⟨0, 0⟩ : PlannerState).total_token_usage ≠ (⟨0, 0⟩ : PlannerState).total_token_usage + 5 := by
  exact ⟨rfl, by decide⟩

/-- C4 (amended): whenever the dispatch chain completes, the ledger is
monotonically non-decreasing in both components; the OpenAI/OpenRouter and Qwen
branches increase `total_token_usage` by exactly the adapter's token count, but
the SSH branch leaves the ledger entirely unchanged. -/
theorem dispatch_token_accounting (provider : APIProvider) (model api_key : String)
    (oai qwen : AdapterReply) (sshAdapter : String → Int → AdapterReply)
    (st st' : PlannerState) (resp : String)
    (h : dispatch provider model api_key oai qwen sshAdapter st = Except.ok (st', resp)) :
    st.total_token_usage ≤ st'.total_token_usage
    ∧ st.total_cost ≤ st'.total_cost
    ∧ ((provider = APIProvider.openai ∨ provider = APIProvider.openrouter) →
        st'.total_token_usage = st.total_token_usage + oai.token_usage)
    ∧ (provider = APIProvider.qwen →
        st'.total_token_usage = st.total_token_usage + qwen.token_usage)
    ∧ (provider = APIProvider.ssh → st' = st) := by
  cases provider with
  | openai =>
    simp [dispatch] at h
    obtain ⟨hst, hresp⟩ := h
    subst hst
    refine ⟨by simp, ?_, by intro _; rfl, by intro hq; simp at hq, by intro hq; simp at hq⟩
    have hpos : (0:ℚ) ≤ (oai.token_usage : ℚ) * (15 / 100) / 1000000 := by positivity
    show st.total_cost ≤ st.total_cost + (oai.token_usage : ℚ) * (15 / 100) / 1000000
    linarith
  | openrouter =>
    simp [dispatch] at h
    obtain ⟨hst, hresp⟩ := h
    subst hst
    exact ⟨by simp, le_refl _, by intro _; rfl, by intro hq; simp at hq, by intro hq; simp at hq⟩
  | qwen =>
    by_cases hm : model = "qwen2-vl-max"
    · simp [dispatch, hm] at h
      obtain ⟨hst, hresp⟩ := h
      subst hst
      refine ⟨by simp, ?_, by intro hq; rcases hq with hq | hq <;> simp at hq, by intro _; rfl,
        by intro hq; simp at hq⟩
      have hpos : (0:ℚ) ≤ (qwen.token_usage : ℚ) * (2 / 100) / (725 / 100) / 1000 := by positivity
      show st.total_cost ≤ st.total_cost + (qwen.token_usage : ℚ) * (2 / 100) / (725 / 100) / 1000
      linarith
    · simp [dispatch, hm] at h
  | ssh =>
    simp [dispatch] at h
    cases hp : ssh_parse api_key with
    | error e => rw [hp] at h; simp at h
    | ok hostport =>
      rw [hp] at h
      simp at h
      obtain ⟨hst, hresp⟩ := h
      subst hst
      exact ⟨le_refl _, le_refl _, by intro hq; rcases hq with hq | hq <;> simp at hq,
        by intro hq; simp at hq, by intro _; rfl⟩
  | other tag =>
    simp [dispatch] at h

/-- Witness for the amended C4 theorem at a concrete SSH call. -/
theorem dispatch_token_accounting_witness :
    (⟨10, 1⟩ : PlannerState).total_token_usage ≤ (⟨10, 1⟩ : PlannerState).total_token_usage
    ∧ (⟨10, 1⟩ : PlannerState).total_cost ≤ (⟨10, 1⟩ : PlannerState).total_cost
    ∧ ((APIProvider.ssh = APIProvider.openai ∨ APIProvider.ssh = APIProvider.openrouter) →
        (⟨10, 1⟩ : PlannerState).total_token_usage = (⟨10, 1⟩ : PlannerState).total_token_usage + 3)
    ∧ (APIProvider.ssh = APIProvider.qwen →
        (⟨10, 1⟩ : PlannerState).total_token_usage = (⟨10, 1⟩ : PlannerState).total_token_usage + 4)
    ∧ (APIProvider.ssh = APIProvider.ssh → (⟨10, 1⟩ : PlannerState) = (⟨10, 1⟩ : PlannerState)) :=
  dispatch_token_accounting APIProvider.ssh "Qwen2-VL-7B-Instruct" "localhost:8000"
    ⟨"r", 3⟩ ⟨"q", 4⟩ (fun _ _ => ⟨"s", 5⟩) ⟨10, 1⟩ ⟨10, 1⟩ "s" rfl

/-- C7: the SSH provider parses its credential as a `host:port` pair before any
network attempt: `"localhost:8000"` resolves to host `localhost` and integer
port `8000` (and the adapter is invoked at exactly those values), while a
colon-free credential such as `"localhost"` makes the dispatch fail with the
SSH-connection-string `ValueError` regardless of what any adapter would reply —
i.e. before any network call. -/
theorem ssh_credential_parsing :
    ssh_parse "localhost:8000" = Except.ok ("localhost", 8000)
    ∧ (∀ (st : PlannerState) (model : String) (oai qwen : AdapterReply)
          (sshAdapter : String → Int → AdapterReply),
        dispatch APIProvider.ssh model "localhost" oai qwen sshAdapter st
          = Except.error "Invalid SSH connection string. Expected format: host:port")
    ∧ (∀ (st : PlannerState) (model : String) (oai qwen : AdapterReply)
          (sshAdapter : String → Int → AdapterReply),
        dispatch APIProvider.ssh model "localhost:8000" oai qwen sshAdapter st
          = Except.ok (st, (sshAdapter "localhost" 8000).response)) := by
  refine ⟨rfl, ?_, ?_⟩
  · intro st model oai qwen sshAdapter
    have hp : ssh_parse "localhost"
        = Except.error "Invalid SSH connection string. Expected format: host:port" := rfl
    simp [dispatch, hp]
  · intro st model oai qwen sshAdapter
    have hp : ssh_parse "localhost:8000" = Except.ok ("localhost", 8000) := rfl
    simp [dispatch, hp]

/-! ### The Actor (`ShowUIActorAPI.__call__`) -/

/-- The normalized record the Actor returns to the orchestrator. -/
structure ActorResult where
  content : String
  role : String
deriving DecidableEq

/-- One call of `ShowUIActorAPI.__call__`, given the model raw output text for
this turn as an oracle: it builds the user prompt (appending the accumulated
action history when it is non-empty, per Python string truthiness), executes
`self.action_history += output_text + '\n'`, and returns
`{'content': output_text, 'role': 'assistant'}`.  The result is (new action
history, prompt text sent to the adapter, returned record). -/
def showui_actor_call (action_history : String) (task : String) (output_text : String) :
    String × String × ActorResult :=
  let current_prompt := "Task: " ++ task
  let current_prompt :=
    if action_history ≠ "" then
      current_prompt ++ "\n\nPrevious Actions:\n" ++ action_history
    else
      current_prompt
  let current_prompt := current_prompt ++
    "\n\nGiven the screenshot and the task, provide the next action based on the defined action space and format."
  (action_history ++ output_text ++ "\n", current_prompt,
   { content := output_text, role := "assistant" })

/-- A session of consecutive Actor calls: fold `showui_actor_call` over a list
of (task, model output) turns, starting from a given action history. -/
def run_actor_session (action_history : String) : List (String × String) → String
  | [] => action_history
  | c :: rest => run_actor_session (showui_actor_call action_history c.1 c.2).1 rest

/-- The concatenation, in call order, of each raw model output followed by a
newline. -/
def history_concat (calls : List (String × String)) : String :=
  calls.foldr (fun c acc => c.2 ++ "\n" ++ acc) ""

lemma run_actor_session_eq (calls : List (String × String)) :
    ∀ h : String, run_actor_session h calls = h ++ history_concat calls := by
  induction calls with
  | nil =>
    intro h
    simp [run_actor_session, history_concat]
  | cons c rest ih =>
    intro h
    show run_actor_session (h ++ c.2 ++ "\n") rest = _
    rw [ih]
    simp [history_concat, String.append_assoc]

/-- C9: the Actor's action history accumulates strictly monotonically, one
appended line per call: after any sequence of calls starting from the empty
buffer, the history equals the concatenation, in call order, of the raw model
outputs each followed by a newline; and from any starting buffer the previous
contents survive as a prefix (the buffer is never truncated or summarized). -/
theorem actor_history_appends_one_line_per_call (calls : List (String × String)) :
    run_actor_session "" calls = history_concat calls
    ∧ ∀ h : String, ∃ t : String, run_actor_session h calls = h ++ t := by
  constructor
  · rw [run_actor_session_eq]
    simp
  · intro h
    exact ⟨history_concat calls, run_actor_session_eq calls h⟩

/-! ### JSON extraction and observer formatting (planner steps 6-7)

`extract_data(response, "json")` lives in
`computer_use_demo/gui_agent/llm_utils/llm_utils.py`, which is not among the
sources; it is modelled from the spec.  `json.loads` is the Python standard
library; a minimal parser of flat string-valued JSON objects (sufficient for
the planner's Thinking / Next Action objects) stands in for it. -/

/-- An apostrophe, as a one-character string. -/
def sq : String := String.singleton (Char.ofNat 39)

/-- Skip JSON whitespace. -/
def skipWs : List Char → List Char
  | [] => []
  | c :: cs => if c = ' ' ∨ c = '\n' ∨ c = '\t' ∨ c = '\r' then skipWs cs else c :: cs

/-- Balanced-brace scan: consume characters, tracking brace depth, until the
brace opened first is closed; `none` if the text ends first. -/
def scanBalanced : List Char → Nat → List Char → Option (List Char)
  | [], _, _ => none
  | c :: cs, depth, acc =>
    if c = '\x7b' then
      scanBalanced cs (depth + 1) (c :: acc)
    else if c = '\x7d' then
      if depth = 1 then some (c :: acc).reverse
      else scanBalanced cs (depth - 1) (c :: acc)
    else
      scanBalanced cs depth (c :: acc)

/-- Modelled from the spec: `extract_data(response, "json")` — "Extract the
first well-formed JSON object from the raw response text", tolerating
surrounding prose and code fences ("find first balanced JSON object") — as the
substring from the first opening brace through its matching closing brace;
`none` (no object found) becomes the parse error of the claim.  The function
itself is missing from the sources (`llm_utils.py`). -/
def firstJsonObject (s : String) : Option String :=
  match scanBalanced (s.data.dropWhile (fun c => c ≠ '\x7b')) 0 [] with
  | some cs => some (String.mk cs)
  | none => none

/-- Parse the body of a JSON string after its opening quote (no escape
sequences, which the planner objects do not use). -/
def parseStringBody : List Char → List Char → Option (String × List Char)
  | [], _ => none
  | c :: cs, acc => if c = '"' then some (String.mk acc.reverse, cs) else parseStringBody cs (c :: acc)

/-- Parse a JSON string literal. -/
def parseJsonString : List Char → Option (String × List Char)
  | [] => none
  | c :: cs => if c = '"' then parseStringBody cs [] else none

/-- Parse one or more comma-separated `"key": "value"` pairs followed by the
closing brace; the fuel argument bounds recursion by the input length. -/
def parsePairs : Nat → List Char → Option (List (String × String) × List Char)
  | 0, _ => none
  | fuel + 1, cs =>
    match parseJsonString (skipWs cs) with
    | none => none
    | some (k, cs1) =>
      match skipWs cs1 with
      | ':' :: cs2 =>
        match parseJsonString (skipWs cs2) with
        | none => none
        | some (v, cs3) =>
          match skipWs cs3 with
          | ',' :: cs4 =>
            match parsePairs fuel cs4 with
            | some (ps, cs5) => some ((k, v) :: ps, cs5)
            | none => none
          | '\x7d' :: cs4 => some ([(k, v)], cs4)
          | _ => none
      | _ => none

/-- Python `json.loads` restricted to flat string-valued objects (the planner's
output schema): the whole input must be one JSON object, with insertion order
preserved as Python dicts do. -/
def json_loads_flat (s : String) : Option (List (String × String)) :=
  match skipWs s.data with
  | [] => none
  | c :: cs =>
    if c = '\x7b' then
      match skipWs cs with
      | [] => none
      | d :: ds =>
        if d = '\x7d' then
          if (skipWs ds).isEmpty then some [] else none
        else
          match parsePairs (cs.length + 1) (d :: ds) with
          | some (ps, rest) => if (skipWs rest).isEmpty then some ps else none
          | none => none
    else none

/-- The observer-summary loop of `__call__`: iterate the parsed object's items
in order; the `Thinking` value is appended bare, every other pair as a
newline-prefixed `key: value` line. -/
def vlm_plan_str (pairs : List (String × String)) : String :=
  pairs.foldl
    (fun acc kv =>
      if kv.1 = "Thinking" then acc ++ kv.2 else acc ++ "\n" ++ kv.1 ++ ": " ++ kv.2)
    ""

/-- Steps 6-7 of `APIVLMPlanner.__call__`:
`vlm_response_json = extract_data(vlm_response, "json")`, then the
`json.loads(vlm_response_json).items()` formatting loop.  Returns the raw
extracted JSON string (which `__call__` returns to the caller unchanged)
together with the observer summary; a missing JSON object or unparsable text
fails the turn with a parse error. -/
def planner_parse_stage (vlm_response : String) : Except String (String × String) :=
  match firstJsonObject vlm_response with
  | none => Except.error "parse error"
  | some js =>
    match json_loads_flat js with
    | none => Except.error "parse error"
    | some pairs => Except.ok (js, vlm_plan_str pairs)

/-- C8: on the raw planner response wrapping a JSON object in prose and code
fences, the Planner extracts the embedded object, returns exactly that raw JSON
substring to the caller, and renders the observer summary with the Thinking
value bare ("t") and every other key as its own "key: value" line
("Next Action: CLICK 'ok'"); on a response with no JSON object the turn fails
with a parse error. -/
theorem planner_extracts_json_and_formats_summary :
    planner_parse_stage
        ("Sure! ```json\n\x7b\"Thinking\": \"t\", \"Next Action\": \"CLICK "
          ++ sq ++ "ok" ++ sq ++ "\"\x7d\n```")
      = Except.ok
          ("\x7b\"Thinking\": \"t\", \"Next Action\": \"CLICK " ++ sq ++ "ok" ++ sq ++ "\"\x7d",
           "t" ++ "\nNext Action: CLICK " ++ sq ++ "ok" ++ sq)
    ∧ planner_parse_stage "There is no structured output here." = Except.error "parse error" :=
  ⟨rfl, rfl⟩

end OOTB
